import Mathlib

/-!
Verification of the scheme-dispatch copy engine of `gcs_uri.py`.

The Python code is shallowly embedded: Python `str` values become Lean
`String`, `pathlib.Path` values are represented by their rendered string
form, and `google.cloud.storage.Blob` handles become a `Blob` structure
holding the bucket name and the object name.  Fallible Python code
(functions that raise) returns `Except PyErr`.  The pieces of the Python
standard library the module relies on (`urllib.parse.urlsplit`,
`urllib.parse.urlparse`, `urllib.parse.unquote_plus`,
`urllib.parse.urlunparse`, `os.path.join`, `os.path.basename`, `re.sub`
for the two fixed patterns of `_flatten`) are modelled here from their
CPython semantics.
-/

/-- Python exception values raised by the embedded code. -/
inductive PyErr where
  | valueError (msg : String)
  | keyError (msg : String)
deriving DecidableEq, Repr

/-- A bucket/object handle, modelling `google.cloud.storage.Blob`
(the fields that `gcs_uri.py` reads: `blob.bucket.name` and `blob.name`). -/
structure Blob where
  bucket : String
  name : String
deriving DecidableEq, Repr

/-- The address union `str | Path | Blob` accepted by the public API.
A `path` holds the rendered string form `str(p)` of the `Path` value. -/
inductive Addr where
  | str (s : String)
  | path (p : String)
  | blob (b : Blob)
deriving DecidableEq, Repr

/-- The narrower union `str | Path` used by several strategy signatures. -/
inductive StrOrPath where
  | str (s : String)
  | path (p : String)
deriving DecidableEq, Repr

/-- The narrower union `str | Blob` used by several strategy signatures. -/
inductive StrOrBlob where
  | str (s : String)
  | blob (b : Blob)
deriving DecidableEq, Repr

def StrOrPath.toAddr : StrOrPath → Addr
  | .str s => .str s
  | .path p => .path p

def StrOrBlob.toAddr : StrOrBlob → Addr
  | .str s => .str s
  | .blob b => .blob b

/-! ## CPython `urllib.parse` model -/

/-- Characters allowed in a URI scheme by CPython `urllib.parse`
(`scheme_chars`: letters, digits, and the three marks). -/
def isSchemeChar (c : Char) : Bool :=
  decide ((Char.ofNat 97 ≤ c ∧ c ≤ Char.ofNat 122) ∨
          (Char.ofNat 65 ≤ c ∧ c ≤ Char.ofNat 90) ∨
          (Char.ofNat 48 ≤ c ∧ c ≤ Char.ofNat 57) ∨
          c = '+' ∨ c = '-' ∨ c = '.')

/-- ASCII letter test (`url[0].isascii() and url[0].isalpha()`). -/
def isAsciiAlpha (c : Char) : Bool :=
  decide ((Char.ofNat 97 ≤ c ∧ c ≤ Char.ofNat 122) ∨
          (Char.ofNat 65 ≤ c ∧ c ≤ Char.ofNat 90))

/-- ASCII lowercasing of one character, as `str.lower` acts on the
(ASCII-only) scheme part. -/
def lowerAscii (c : Char) : Char :=
  if Char.ofNat 65 ≤ c ∧ c ≤ Char.ofNat 90 then Char.ofNat (c.toNat + 32) else c

/-- CPython `urlsplit` removes tab, carriage return and newline from the
URL before parsing (`_UNSAFE_URL_BYTES_TO_REMOVE`). -/
def removeUnsafeChars (cs : List Char) : List Char :=
  cs.filter (fun c => !(c == Char.ofNat 9 || c == Char.ofNat 13 || c == Char.ofNat 10))

/-- The scheme-splitting step of CPython `urlsplit`: if the first colon is
at a positive index, the first character is an ASCII letter and everything
before the colon is a scheme character, the scheme is that part lowercased
and the rest follows the colon; otherwise the scheme is empty. -/
def splitSchemeAux (cs : List Char) : String × List Char :=
  match cs.findIdx? (fun c => c == ':') with
  | none => ("", cs)
  | some i =>
      if 0 < i ∧ (cs.take i).all isSchemeChar = true ∧ isAsciiAlpha (cs.headD ' ') = true
      then (((cs.take i).map lowerAscii).asString, cs.drop (i + 1))
      else ("", cs)

/-- The netloc-splitting step of CPython `urlsplit` (`_splitnetloc`): when
the remainder starts with two slashes, the netloc extends to the first of
`/`, `?`, `#` after them. -/
def splitNetlocAux (cs : List Char) : String × List Char :=
  if cs.take 2 = ['/', '/'] then
    let rest := cs.drop 2
    match rest.findIdx? (fun c => c == '/' || c == '?' || c == '#') with
    | none => (rest.asString, [])
    | some d => ((rest.take d).asString, rest.drop d)
  else ("", cs)

/-- `url.split(t, 1)`: the part before the first occurrence of `t` and the
part after it (empty when `t` is absent). -/
def splitOnFirst (cs : List Char) (t : Char) : List Char × List Char :=
  match cs.findIdx? (fun c => c == t) with
  | none => (cs, [])
  | some i => (cs.take i, cs.drop (i + 1))

structure SplitResult where
  scheme : String
  netloc : String
  path : String
  query : String
  fragment : String
deriving DecidableEq, Repr

/-- Model of CPython `urllib.parse.urlsplit` (with `allow_fragments` left
at its default). -/
def urlsplitModel (s : String) : SplitResult :=
  let cs := removeUnsafeChars s.data
  let sr := splitSchemeAux cs
  let nr := splitNetlocAux sr.2
  let fr := splitOnFirst nr.2 '#'
  let qr := splitOnFirst fr.1 '?'
  ⟨sr.1, nr.1, qr.1.asString, qr.2.asString, fr.2.asString⟩

/-- First occurrence of `p` at an index at least `start`, as in
`url.find(c, start)`. -/
def findIdxFrom (cs : List Char) (p : Char → Bool) (start : Nat) : Option Nat :=
  ((cs.drop start).findIdx? p).map (fun j => start + j)

/-- Index of the last slash, as `url.rfind(sep)`; meaningful only when a
slash is present. -/
def lastSlashIdx (cs : List Char) : Nat :=
  cs.length - 1 - (cs.reverse.findIdx (fun c => c == '/'))

/-- The parameter-splitting step that `urlparse` adds on top of `urlsplit`
(`_splitparams`, applied only when a semicolon is present): parameters are
split off at the first semicolon of the last path segment. -/
def splitParamsAux (cs : List Char) : List Char :=
  if cs.any (fun c => c == ';') then
    if cs.any (fun c => c == '/') then
      match findIdxFrom cs (fun c => c == ';') (lastSlashIdx cs) with
      | none => cs
      | some i => cs.take i
    else cs.take (cs.findIdx (fun c => c == ';'))
  else cs

/-- The `path` attribute of CPython `urllib.parse.urlparse(s)`. -/
def urlparsePath (s : String) : String :=
  (splitParamsAux (urlsplitModel s).path.data).asString

/-- Value of a hexadecimal digit, as CPython `_hextobyte` accepts both
cases. -/
def hexDigitVal (c : Char) : Option Nat :=
  if Char.ofNat 48 ≤ c ∧ c ≤ Char.ofNat 57 then some (c.toNat - 48)
  else if Char.ofNat 97 ≤ c ∧ c ≤ Char.ofNat 102 then some (c.toNat - 87)
  else if Char.ofNat 65 ≤ c ∧ c ≤ Char.ofNat 70 then some (c.toNat - 55)
  else none

/-- Percent-escape decoding of CPython `urllib.parse.unquote` on the range
where every escape decodes to an ASCII byte (each `%hh` with both digits
hexadecimal becomes the character of that byte; anything else is kept
literally).  Escapes above `0x7f`, which CPython groups and decodes as
UTF-8 with replacement, are outside the modelled range. -/
def unquoteFuel : Nat → List Char → List Char
  | 0, l => l
  | fuel + 1, l =>
      match l with
      | [] => []
      | c :: rest =>
          if c = '%' then
            match rest with
            | h1 :: h2 :: rest2 =>
                match hexDigitVal h1, hexDigitVal h2 with
                | some a, some b => Char.ofNat (16 * a + b) :: unquoteFuel fuel rest2
                | _, _ => '%' :: unquoteFuel fuel rest
            | _ => '%' :: unquoteFuel fuel rest
          else c :: unquoteFuel fuel rest

/-- The scan of `unquoteFuel` started with enough fuel: every step
consumes at least one character, so fuel equal to the length never runs
out. -/
def unquoteAsciiAux (l : List Char) : List Char :=
  unquoteFuel l.length l

/-- Model of CPython `urllib.parse.unquote_plus`: every `+` becomes a
space, then percent-escapes are decoded. -/
def unquotePlus (s : String) : String :=
  (unquoteAsciiAux (s.data.map (fun c => if c = '+' then ' ' else c))).asString

/-- True when every percent-escape of the string decodes to an ASCII byte,
so that `unquotePlus` agrees exactly with CPython. -/
def asciiEscFuel : Nat → List Char → Bool
  | 0, _ => true
  | fuel + 1, l =>
      match l with
      | [] => true
      | c :: rest =>
          if c = '%' then
            match rest with
            | h1 :: h2 :: rest2 =>
                match hexDigitVal h1, hexDigitVal h2 with
                | some a, some _ => decide (a < 8) && asciiEscFuel fuel rest2
                | _, _ => asciiEscFuel fuel rest
            | _ => true
          else asciiEscFuel fuel rest

/-- `asciiEscFuel` with enough fuel for the whole string. -/
def asciiEscapesOnly (l : List Char) : Bool :=
  asciiEscFuel l.length l

/-- Model of CPython `urllib.parse.urlunsplit` (also `urlunparse` when the
params component is empty, as in every call of `gcs_uri.py`). -/
def urlunsplitModel (scheme netloc path query fragment : String) : String :=
  let url := if netloc ≠ "" ∨ path.data.take 2 = ['/', '/'] then
      "//" ++ netloc ++ (if path ≠ "" ∧ path.data.head? ≠ some '/' then "/" ++ path else path)
    else path
  let url := if scheme ≠ "" then scheme ++ ":" ++ url else url
  let url := if query ≠ "" then url ++ "?" ++ query else url
  if fragment ≠ "" then url ++ "#" ++ fragment else url

/-! ## `os.path` model (posix) -/

/-- `os.path.join` on two arguments (posix semantics, as the module
manipulates `/`-separated object names and posix paths). -/
def osJoin (a b : String) : String :=
  if b.data.head? = some '/' then b
  else if a.data = [] ∨ a.data.getLast? = some '/' then a ++ b
  else a ++ "/" ++ b

/-- `os.path.basename`: everything after the last slash. -/
def basename (s : String) : String :=
  ((s.data.reverse.takeWhile (fun c => !(c == '/'))).reverse).asString

/-- `s.endswith(sep)` for the one-character separator. -/
def endsWithSlash (s : String) : Bool :=
  decide (s.data.getLast? = some '/')

/-! ## Python `repr` of the values the module prints -/

/-- CPython `repr` of a string over printable characters: the quote is a
double quote exactly when the string contains a single quote and no double
quote, and backslashes and the chosen quote are escaped. -/
def pyReprStr (s : String) : String :=
  let apos : Char := Char.ofNat 39
  let quot : Char := Char.ofNat 34
  let bslash : Char := Char.ofNat 92
  let q := if s.data.contains apos && !(s.data.contains quot) then quot else apos
  let body := s.data.foldr (fun c acc => if c = bslash ∨ c = q then bslash :: c :: acc else c :: acc) []
  (q :: (body ++ [q])).asString

/-- CPython `repr` of the three address forms: strings via string `repr`,
`Path` values as `PosixPath(...)`, and `Blob` values via the
`google.cloud.storage` `__repr__` (`<Blob: bucket, name, generation>`,
with no generation set). -/
def pyReprAddr : Addr → String
  | .str s => pyReprStr s
  | .path p => "PosixPath(" ++ pyReprStr p ++ ")"
  | .blob b => "<Blob: " ++ b.bucket ++ ", " ++ b.name ++ ", None>"

/-! ## Embedding of `gcs_uri.py` -/

/-- `_blob_to_uri`: `urlunparse(("gs", blob.bucket.name, blob.name, "", "", ""))`. -/
def blobToUri (b : Blob) : String :=
  urlunsplitModel "gs" b.bucket b.name "" ""

/-- `_filename_to_uri`: `urlunparse(("file", "", str(filename), "", "", ""))`. -/
def filenameToUri (s : String) : String :=
  urlunsplitModel "file" "" s "" ""

/-- `_uri_to_filename`: a string goes through
`unquote_plus(urlparse(uri).path)`, a `Path` is rendered as is. -/
def uriToFilename : StrOrPath → String
  | .str s => unquotePlus (urlparsePath s)
  | .path p => p

/-- `google.cloud.storage.Blob.from_string`: `urlsplit` the URI, require
the scheme `gs`, take the netloc as bucket name and the path minus its
first character as object name. -/
def Blob.fromString (uri : String) : Except PyErr Blob :=
  let r := urlsplitModel uri
  if r.scheme = "gs" then .ok ⟨r.netloc, r.path.drop 1⟩
  else .error (.valueError "URI scheme must be gs")

/-- The `Blob.from_string(x, ...) if isinstance(x, str) else x` idiom used
by every remote-touching strategy. -/
def resolveBlob : StrOrBlob → Except PyErr Blob
  | .str s => Blob.fromString s
  | .blob b => .ok b

/-- `_parse_scheme`: strings are classified by their parsed URI scheme
(empty and `file` mean local, `gs` means remote, anything else raises
`ValueError`); `Path` values are local; `Blob` values are remote. -/
def parseScheme : Addr → Except PyErr String
  | .str s =>
      let scheme := (urlsplitModel s).scheme
      if scheme = "" ∨ scheme = "file" then .ok ""
      else if scheme = "gs" then .ok "gs"
      else .error (.valueError ("Failed to determine scheme for " ++ pyReprStr s))
  | .path _ => .ok ""
  | .blob _ => .ok "gs"

/-- The character class kept by the first substitution of `_flatten`
(`[0-9a-zA-Z_.-]`, the complement of the replaced class). -/
def isFlatAllowed (c : Char) : Bool :=
  decide ((Char.ofNat 48 ≤ c ∧ c ≤ Char.ofNat 57) ∨
          (Char.ofNat 97 ≤ c ∧ c ≤ Char.ofNat 122) ∨
          (Char.ofNat 65 ≤ c ∧ c ≤ Char.ofNat 90) ∨
          c = '_' ∨ c = '.' ∨ c = '-')

/-- `re.sub(pattern, "-", s)` for the pattern matching every maximal run
of characters outside the allowed class: each such run becomes a single
dash.  The flag records whether the scan is inside a replaced run. -/
def collapseRuns : Bool → List Char → List Char
  | _, [] => []
  | inRun, c :: rest =>
      if isFlatAllowed c = true then c :: collapseRuns false rest
      else if inRun then collapseRuns true rest
      else '-' :: collapseRuns true rest

/-- The second substitution of `_flatten`, removing the leading and the
trailing run of dashes (`re.sub` with the anchored alternation). -/
def dropEdgeDashes (cs : List Char) : List Char :=
  ((cs.dropWhile (fun c => c == '-')).reverse.dropWhile (fun c => c == '-')).reverse

/-- The string `_flatten` starts from: `str(spb)` for strings and `Path`
values, `_blob_to_uri(spb)` for blobs. -/
def flattenInput : Addr → String
  | .str s => s
  | .path p => p
  | .blob b => blobToUri b

/-- `_flatten`: render the address to a string, collapse every run of
characters outside `[0-9a-zA-Z_.-]` to a single dash and strip leading and
trailing dashes. -/
def flatten (a : Addr) : String :=
  (dropEdgeDashes (collapseRuns false (flattenInput a).data)).asString

/-- `_log_successful_copy`: the printed line for one successfully copied
item, with the `[n/N] - ` progress marker unless either counter is
`None`. -/
def logSuccessfulCopy (src : Addr) (n bigN : Option Nat) : String :=
  let uri := match src with
    | .str s => filenameToUri s
    | .path p => filenameToUri p
    | .blob b => blobToUri b
  let pre := match n, bigN with
    | some nv, some nN => "[" ++ toString nv ++ "/" ++ toString nN ++ "] - "
    | _, _ => ""
  pre ++ "Copied " ++ pyReprStr uri

/-- The diagnostic line printed by `_log_elapsed_time_on_error` when the
wrapped strategy raises. -/
def failedCopyMsg (src : Addr) (totalSeconds : String) : String :=
  "Failed to copy " ++ pyReprAddr src ++ " (attempt took " ++ totalSeconds ++ "s)"

/-- `_log_elapsed_time_on_error`, the decorator wrapped around all eight
strategy functions.  A strategy run is embedded as its `Except` outcome
paired with the lines it printed; the wall-clock elapsed time, which the
embedding cannot observe, is the `totalSeconds` parameter (already
formatted with six decimals).  On success the wrapper is the identity; on
an exception it appends the diagnostic line and re-raises the same
exception value. -/
def logElapsedTimeOnError (src : Addr) (totalSeconds : String)
    (body : Except PyErr α × List String) : Except PyErr α × List String :=
  match body with
  | (.ok a, out) => (.ok a, out)
  | (.error e, out) => (.error e, out ++ [failedCopyMsg src totalSeconds])

/-! ## Single-item strategy bodies

Each strategy body is embedded as the computation of its observable
decisions: the effective destination it writes, and the success line it
prints (`quiet` suppressing it).  The byte transfer itself is the external
collaborator.  The filesystem query `os.path.isdir` of `_download_file` is
an abstract predicate parameter. -/

/-- Effect of `_copy_file` (local file to local file): `shutil.copy2` is
the collaborator; the observable effect is the success log of the source. -/
def copyFileRun (src : StrOrPath) (_dst : StrOrPath) (quiet : Bool) : List String :=
  if quiet then [] else [logSuccessfulCopy src.toAddr none none]

structure DownloadEffect where
  filename : String
  output : List String
deriving DecidableEq, Repr

/-- Effect of `_download_file` (remote blob to local file): resolve the
source blob, then download to the destination path — or, when that path is
an existing local directory, to the blob basename inside it — and log the
source blob URI. -/
def downloadFileRun (isdir : String → Bool) (src : StrOrBlob) (dst : StrOrPath)
    (quiet : Bool) : Except PyErr DownloadEffect :=
  match resolveBlob src with
  | .error e => .error e
  | .ok s =>
      let d := uriToFilename dst
      let filename := if isdir d = true then osJoin d (basename s.name) else d
      .ok ⟨filename, if quiet then [] else [logSuccessfulCopy (.blob s) (some 1) (some 1)]⟩

structure UploadEffect where
  dstBlob : Blob
  srcFilename : String
  output : List String
deriving DecidableEq, Repr

/-- Effect of `_upload_file` (local file to remote blob): resolve the
destination blob, and when its name ends in a slash upload under the
source basename appended to it; the success line names the local source
filename. -/
def uploadFileRun (src : StrOrPath) (dst : StrOrBlob) (quiet : Bool) :
    Except PyErr UploadEffect :=
  match resolveBlob dst with
  | .error e => .error e
  | .ok d0 =>
      let s := uriToFilename src
      let d := if endsWithSlash d0.name = true
               then { d0 with name := osJoin d0.name (basename s) }
               else d0
      .ok ⟨d, s, if quiet then [] else [logSuccessfulCopy (.str s) (some 1) (some 1)]⟩

structure CopyBlobEffect where
  dstBlob : Blob
  output : List String
deriving DecidableEq, Repr

/-- Effect of `_copy_blob` (remote blob to remote blob): resolve both
blobs; when the destination name ends in a slash and the source name does
not, the destination becomes the source basename under it; the success
line names the final destination blob. -/
def copyBlobRun (src : StrOrBlob) (dst : StrOrBlob) (quiet : Bool) :
    Except PyErr CopyBlobEffect :=
  match resolveBlob src with
  | .error e => .error e
  | .ok s =>
      match resolveBlob dst with
      | .error e => .error e
      | .ok d0 =>
          let srcIsDir := endsWithSlash s.name
          let dstIsDir := endsWithSlash d0.name
          let d := if dstIsDir = true ∧ ¬ srcIsDir = true
                   then { d0 with name := osJoin d0.name (basename s.name) }
                   else d0
          .ok ⟨d, if quiet then [] else [logSuccessfulCopy (.blob d) (some 1) (some 1)]⟩

/-! ## Dispatch (`_copy`, `_FILE_FUNCTIONS`, `_DIR_FUNCTIONS`) -/

/-- The eight strategy functions, as the values of the two dispatch
tables. -/
inductive StrategyTag where
  | copyFileLL
  | syncFilesLL
  | downloadFileRL
  | uploadFileLR
  | copyBlobRR
  | downloadDirRL
  | uploadDirLR
  | syncBlobsRR
deriving DecidableEq, Repr

/-- `_FILE_FUNCTIONS`: the single-item dispatch table keyed by the scheme
pair. -/
def fileFunctions : String × String → Option StrategyTag := fun k =>
  if k = ("", "") then some .copyFileLL
  else if k = ("gs", "") then some .downloadFileRL
  else if k = ("", "gs") then some .uploadFileLR
  else if k = ("gs", "gs") then some .copyBlobRR
  else none

/-- `_DIR_FUNCTIONS`: the tree dispatch table keyed by the scheme pair. -/
def dirFunctions : String × String → Option StrategyTag := fun k =>
  if k = ("", "") then some .syncFilesLL
  else if k = ("gs", "") then some .downloadDirRL
  else if k = ("", "gs") then some .uploadDirLR
  else if k = ("gs", "gs") then some .syncBlobsRR
  else none

/-- Whether `_copy` runs the selected strategy without any client, with
the injected client, or with a freshly constructed default client. -/
inductive ClientUse where
  | noClient
  | injected
  | fresh
deriving DecidableEq, Repr

structure DispatchEffect where
  schemes : String × String
  strategy : StrategyTag
  clientUse : ClientUse
deriving DecidableEq, Repr

/-- `_copy`: parse both schemes, look the pair up in the strategy table,
and — when neither side is `gs` — call the strategy without a client,
otherwise with `client or Client()`. -/
def copyDispatch (table : String × String → Option StrategyTag)
    (src dst : Addr) (clientSupplied : Bool) : Except PyErr DispatchEffect :=
  match parseScheme src with
  | .error e => .error e
  | .ok ss =>
      match parseScheme dst with
      | .error e => .error e
      | .ok ds =>
          match table (ss, ds) with
          | none => .error (.keyError (ss ++ "/" ++ ds))
          | some fn =>
              if ss ≠ "gs" ∧ ds ≠ "gs" then .ok ⟨(ss, ds), fn, .noClient⟩
              else .ok ⟨(ss, ds), fn, if clientSupplied then .injected else .fresh⟩

/-! ## `copy_files` destination resolution and task pairing -/

/-- The rendered string of a `str | Path` destination, as `os.path.join`
coerces a `Path` argument. -/
def StrOrPath.render : StrOrPath → String
  | .str s => s
  | .path p => p

/-- The destination argument of `copy_files`: one `str | Path` value, one
`Blob` value, or a sequence of addresses. -/
inductive BatchDst where
  | single (d : StrOrPath)
  | singleBlob (b : Blob)
  | many (ds : List Addr)

/-- The `_dsts` list `copy_files` computes: a single `str | Path`
destination receives each source flattened and joined under it, a single
`Blob` destination receives blobs named likewise under its name, and a
sequence is used as given. -/
def copyFilesResolvedDsts (srcs : List Addr) : BatchDst → List Addr
  | .single d => srcs.map (fun s => .str (osJoin d.render (flatten s)))
  | .singleBlob b => srcs.map (fun s => .blob ⟨b.bucket, osJoin b.name (flatten s)⟩)
  | .many ds => ds

/-- The source/destination pairs `copy_files` submits to the pool:
`zip(srcs, _dsts)`. -/
def copyFilesTasks (srcs : List Addr) (dsts : BatchDst) : List (Addr × Addr) :=
  srcs.zip (copyFilesResolvedDsts srcs dsts)

/-! ## Shared list helper lemmas -/

theorem zip_map_fst_take {α β : Type} (l1 : List α) (l2 : List β) :
    (l1.zip l2).map Prod.fst = l1.take l2.length := by
  induction l1 generalizing l2 with
  | nil => simp
  | cons a l ih =>
      cases l2 with
      | nil => simp
      | cons b m => simp [ih]

theorem zip_map_snd_take {α β : Type} (l1 : List α) (l2 : List β) :
    (l1.zip l2).map Prod.snd = l2.take l1.length := by
  induction l1 generalizing l2 with
  | nil => simp
  | cons a l ih =>
      cases l2 with
      | nil => simp
      | cons b m => simp [ih]

/-! ## C3 -/

/-- C3: the timing wrapper `_log_elapsed_time_on_error`, which the source
applies to every one of the eight single-item and tree copy strategies, on
an exception appends exactly the line
`Failed to copy <source> (attempt took <elapsed>s)` and propagates the
very same exception value, and on success changes nothing; no exception is
ever swallowed.  The wall-clock elapsed time is the seconds parameter,
which the embedding cannot measure. -/
theorem logElapsedTimeOnError_reraises_unchanged :
    (∀ (α : Type) (src : Addr) (t : String) (e : PyErr) (out : List String),
        logElapsedTimeOnError (α := α) src t (.error e, out)
          = (.error e, out ++ [failedCopyMsg src t]))
  ∧ (∀ (α : Type) (src : Addr) (t : String) (a : α) (out : List String),
        logElapsedTimeOnError src t (.ok a, out) = (.ok a, out)) :=
  ⟨fun _ _ _ _ _ => rfl, fun _ _ _ _ _ => rfl⟩

/-! ## C5 -/

/-- C5: when `copy_files` receives a sequence of destinations, the
submitted tasks are exactly `zip(srcs, dsts)`: pairing is positional,
the task count is the length of the shorter sequence, the i-th task pairs
the i-th source with the i-th destination, and the trailing entries of the
longer sequence are dropped silently — they appear in no task and raise no
error. -/
theorem copyFilesTasks_zip_truncates :
    ∀ (srcs ds : List Addr),
      copyFilesTasks srcs (.many ds) = srcs.zip ds
    ∧ (copyFilesTasks srcs (.many ds)).length = min srcs.length ds.length
    ∧ (∀ i : Nat, (copyFilesTasks srcs (.many ds))[i]? =
        (Option.map Prod.mk srcs[i]?).bind (fun g => Option.map g ds[i]?))
    ∧ (copyFilesTasks srcs (.many ds)).map Prod.fst = srcs.take ds.length
    ∧ (copyFilesTasks srcs (.many ds)).map Prod.snd = ds.take srcs.length := by
  intro srcs ds
  refine ⟨rfl, ?_, ?_, ?_, ?_⟩
  · exact List.length_zip srcs ds
  · intro i
    show (srcs.zip ds)[i]? = _
    rw [List.zip_eq_zipWith]
    exact List.getElem?_zipWith'
  · exact zip_map_fst_take srcs ds
  · exact zip_map_snd_take srcs ds

/-! ## C6 -/

/-- C6: `_copy` constructs no storage client and ignores the injected one
whenever neither parsed scheme is `gs` (the effect is the same for every
value of the client argument), and forwards a client — the injected one
when supplied, a fresh default otherwise — exactly when at least one
scheme is `gs`. -/
theorem copyDispatch_client_policy :
    ∀ (table : String × String → Option StrategyTag) (src dst : Addr)
      (b : Bool) (eff : DispatchEffect),
      copyDispatch table src dst b = .ok eff →
        ((eff.schemes.1 ≠ "gs" ∧ eff.schemes.2 ≠ "gs") →
            eff.clientUse = .noClient
          ∧ ∀ b2 : Bool, copyDispatch table src dst b2 = .ok eff)
      ∧ ((eff.schemes.1 = "gs" ∨ eff.schemes.2 = "gs") →
            eff.clientUse = (if b then .injected else .fresh)) := by
  intro table src dst b eff h
  simp only [copyDispatch] at h
  cases hs : parseScheme src with
  | error e => rw [hs] at h; simp at h
  | ok ss =>
      rw [hs] at h
      dsimp only at h
      cases hd : parseScheme dst with
      | error e => rw [hd] at h; simp at h
      | ok ds =>
          rw [hd] at h
          dsimp only at h
          cases ht : table (ss, ds) with
          | none => rw [ht] at h; simp at h
          | some fn =>
              rw [ht] at h
              dsimp only at h
              by_cases hc : ss ≠ "gs" ∧ ds ≠ "gs"
              · rw [if_pos hc] at h
                injection h with h
                subst h
                constructor
                · intro _
                  refine ⟨rfl, ?_⟩
                  intro b2
                  simp [copyDispatch, hs, hd, ht, hc]
                · intro hoz
                  rcases hoz with h1 | h2
                  · exact absurd h1 hc.1
                  · exact absurd h2 hc.2
              · rw [if_neg hc] at h
                injection h with h
                subst h
                constructor
                · intro hne
                  exact absurd ⟨hne.1, hne.2⟩ hc
                · intro _
                  rfl

/-- Witness for C6: a purely local pair dispatches with no client even
when a client is supplied. -/
theorem copyDispatch_client_policy_witness :
    copyDispatch fileFunctions (.path "a") (.path "b") true
        = .ok ⟨("", ""), .copyFileLL, .noClient⟩
  ∧ (DispatchEffect.mk ("", "") .copyFileLL .noClient).clientUse = .noClient :=
  ⟨rfl,
   ((copyDispatch_client_policy fileFunctions (.path "a") (.path "b") true
      ⟨("", ""), .copyFileLL, .noClient⟩ rfl).1 (by simp)).1⟩

/-! ## C1 -/

/-- C1: classification is total, pure and syntactic.  A string whose
parsed URI scheme is neither empty, `file` nor `gs` makes `_parse_scheme`
raise the invalid-address `ValueError`, and `_copy` (the engine behind
`copy_file`, `copy_dir` and the per-item work of `copy_files`) propagates
that same error before any strategy is selected or any client built, so
the copy never partially succeeds.  Strings with empty or `file` scheme
and every `Path` classify as local; `gs` strings and every `Blob` classify
as remote.  The embedding is a pure function, mirroring that
classification touches neither disk nor network. -/
theorem parseScheme_classification :
    ∀ (s p : String) (b : Blob),
      ((urlsplitModel s).scheme ≠ "" → (urlsplitModel s).scheme ≠ "file" →
       (urlsplitModel s).scheme ≠ "gs" →
         parseScheme (.str s)
           = .error (.valueError ("Failed to determine scheme for " ++ pyReprStr s))
       ∧ ∀ (table : String × String → Option StrategyTag) (dst : Addr) (csup : Bool),
           copyDispatch table (.str s) dst csup
             = .error (.valueError ("Failed to determine scheme for " ++ pyReprStr s)))
    ∧ (((urlsplitModel s).scheme = "" ∨ (urlsplitModel s).scheme = "file") →
         parseScheme (.str s) = .ok "")
    ∧ ((urlsplitModel s).scheme = "gs" → parseScheme (.str s) = .ok "gs")
    ∧ parseScheme (.path p) = .ok ""
    ∧ parseScheme (.blob b) = .ok "gs" := by
  intro s p b
  refine ⟨?_, ?_, ?_, rfl, rfl⟩
  · intro h1 h2 h3
    have he : parseScheme (.str s)
        = .error (.valueError ("Failed to determine scheme for " ++ pyReprStr s)) := by
      simp [parseScheme, h1, h2, h3]
    refine ⟨he, ?_⟩
    intro table dst csup
    simp [copyDispatch, he]
  · intro h
    rcases h with h | h <;> simp [parseScheme, h]
  · intro h
    simp [parseScheme, h]

/-- Witness for C1: the scheme `s3` is rejected, a bare path and a blob
classify as stated. -/
theorem parseScheme_classification_witness :
    ((urlsplitModel "s3://bucket/key").scheme ≠ ""
      ∧ (urlsplitModel "s3://bucket/key").scheme ≠ "file"
      ∧ (urlsplitModel "s3://bucket/key").scheme ≠ "gs")
  ∧ parseScheme (.str "s3://bucket/key")
      = .error (.valueError ("Failed to determine scheme for " ++ pyReprStr "s3://bucket/key")) :=
  ⟨⟨by decide, by decide, by decide⟩,
   ((parseScheme_classification "s3://bucket/key" "p" ⟨"b", "k"⟩).1
      (by decide) (by decide) (by decide)).1⟩

/-! ## Properties of `_flatten` -/

theorem mem_collapseRuns_allowed :
    ∀ (b : Bool) (cs : List Char) (c : Char),
      c ∈ collapseRuns b cs → isFlatAllowed c = true := by
  intro b cs
  induction cs generalizing b with
  | nil => intro c h; simp [collapseRuns] at h
  | cons a rest ih =>
      intro c h
      by_cases ha : isFlatAllowed a = true
      · rw [collapseRuns, if_pos ha] at h
        rcases List.mem_cons.mp h with rfl | h2
        · exact ha
        · exact ih false c h2
      · rw [collapseRuns, if_neg ha] at h
        cases b with
        | true => exact ih true c (by simpa using h)
        | false =>
            simp only [Bool.false_eq_true, if_false] at h
            rcases List.mem_cons.mp h with rfl | h2
            · decide
            · exact ih true c h2

theorem mem_collapseRuns_of_allowed :
    ∀ (b : Bool) (cs : List Char) (c : Char),
      c ∈ cs → isFlatAllowed c = true → c ∈ collapseRuns b cs := by
  intro b cs
  induction cs generalizing b with
  | nil => intro c h; simp at h
  | cons a rest ih =>
      intro c h hc
      by_cases ha : isFlatAllowed a = true
      · rw [collapseRuns, if_pos ha]
        rcases List.mem_cons.mp h with rfl | h2
        · exact List.mem_cons_self _ _
        · exact List.mem_cons_of_mem _ (ih false c h2 hc)
      · have h2 : c ∈ rest := by
          rcases List.mem_cons.mp h with rfl | h2
          · exact absurd hc ha
          · exact h2
        rw [collapseRuns, if_neg ha]
        cases b with
        | true => simpa using ih true c h2 hc
        | false =>
            simp only [Bool.false_eq_true, if_false]
            exact List.mem_cons_of_mem _ (ih true c h2 hc)

theorem head?_dropWhile_false (p : Char → Bool) :
    ∀ (l : List Char) (c : Char), (l.dropWhile p).head? = some c → p c = false := by
  intro l
  induction l with
  | nil => intro c h; simp [List.dropWhile] at h
  | cons a rest ih =>
      intro c h
      by_cases ha : p a = true
      · rw [List.dropWhile_cons, if_pos ha] at h
        exact ih c h
      · rw [List.dropWhile_cons, if_neg ha] at h
        simp only [List.head?_cons, Option.some.injEq] at h
        subst h
        exact Bool.not_eq_true _ ▸ ha

theorem getLast?_dropWhile_ne_nil (p : Char → Bool) :
    ∀ (l : List Char), l.dropWhile p ≠ [] →
      (l.dropWhile p).getLast? = l.getLast? := by
  intro l
  induction l with
  | nil => intro h; simp [List.dropWhile] at h
  | cons a rest ih =>
      intro h
      by_cases ha : p a = true
      · rw [List.dropWhile_cons, if_pos ha] at h ⊢
        have hrest : rest ≠ [] := by
          intro he
          subst he
          simp [List.dropWhile] at h
        rw [ih h]
        cases rest with
        | nil => exact absurd rfl hrest
        | cons b m => rw [List.getLast?_cons_cons]
      · rw [List.dropWhile_cons, if_neg ha]

theorem dropEdgeDashes_head_not_dash (cs : List Char) :
    (dropEdgeDashes cs).head? ≠ some '-' := by
  intro h
  rw [dropEdgeDashes, List.head?_reverse] at h
  set Y := cs.dropWhile (fun c => c == '-') with hY
  have hz : Y.reverse.dropWhile (fun c => c == '-') ≠ [] := by
    intro he
    rw [he] at h
    simp at h
  rw [getLast?_dropWhile_ne_nil _ _ hz, List.getLast?_reverse] at h
  have := head?_dropWhile_false (fun c => c == '-') cs '-' h
  simp at this

theorem dropEdgeDashes_last_not_dash (cs : List Char) :
    (dropEdgeDashes cs).getLast? ≠ some '-' := by
  intro h
  rw [dropEdgeDashes, List.getLast?_reverse] at h
  have := head?_dropWhile_false (fun c => c == '-') _ '-' h
  simp at this

theorem mem_of_mem_dropEdgeDashes {cs : List Char} {c : Char}
    (h : c ∈ dropEdgeDashes cs) : c ∈ cs := by
  rw [dropEdgeDashes, List.mem_reverse] at h
  have h2 := (List.dropWhile_sublist _).subset h
  rw [List.mem_reverse] at h2
  exact (List.dropWhile_sublist _).subset h2

theorem mem_dropWhile_of_ne_dash :
    ∀ (l : List Char) (c : Char), c ∈ l → (c == '-') = false →
      c ∈ l.dropWhile (fun x => x == '-') := by
  intro l
  induction l with
  | nil => intro c h; simp at h
  | cons a rest ih =>
      intro c h hc
      by_cases ha : (a == '-') = true
      · rw [List.dropWhile_cons, if_pos ha]
        have h2 : c ∈ rest := by
          rcases List.mem_cons.mp h with rfl | h2
          · rw [ha] at hc; cases hc
          · exact h2
        exact ih c h2 hc
      · rw [List.dropWhile_cons, if_neg ha]
        exact h

theorem mem_dropEdgeDashes_of_allowed {cs : List Char} {c : Char}
    (h : c ∈ cs) (hne : (c == '-') = false) : c ∈ dropEdgeDashes cs := by
  rw [dropEdgeDashes, List.mem_reverse]
  apply mem_dropWhile_of_ne_dash
  · rw [List.mem_reverse]
    exact mem_dropWhile_of_ne_dash cs c h hne
  · exact hne

theorem flatten_data (a : Addr) :
    (flatten a).data = dropEdgeDashes (collapseRuns false (flattenInput a).data) := rfl

/-! ## C7 -/

/-- C7: `_flatten` is deterministic — it is a pure function, so two
applications to the same address coincide — its output draws every
character from the class `[0-9a-zA-Z_.-]` kept by its first substitution,
and the output neither begins nor ends with a dash. -/
theorem flatten_deterministic_safe_chars :
    ∀ a : Addr,
      flatten a = flatten a
    ∧ (flatten a).data.all isFlatAllowed = true
    ∧ (flatten a).data.head? ≠ some '-'
    ∧ (flatten a).data.getLast? ≠ some '-' := by
  intro a
  refine ⟨rfl, ?_, ?_, ?_⟩
  · rw [List.all_eq_true]
    intro c hc
    rw [flatten_data] at hc
    exact mem_collapseRuns_allowed false _ c (mem_of_mem_dropEdgeDashes hc)
  · rw [flatten_data]
    exact dropEdgeDashes_head_not_dash _
  · rw [flatten_data]
    exact dropEdgeDashes_last_not_dash _

/-! ## C8 -/

/-- Counterexample to C8: the root path `/` is accepted by the public
interface — `_parse_scheme` classifies it as local — yet `_flatten` maps
it to the empty string. -/
theorem flatten_empty_on_accepted_address :
    parseScheme (.str "/") = .ok "" ∧ flatten (.str "/") = "" :=
  ⟨rfl, rfl⟩

/-- C8 as amended: `_flatten` produces a non-empty string for every
address whose rendered form contains at least one character of the kept
class other than the dash (the counterexample forces the restriction:
an accepted address rendering to separators and dashes only, such as `/`,
flattens to the empty string). -/
theorem flatten_nonempty_amended :
    ∀ (a : Addr) (c : Char),
      c ∈ (flattenInput a).data → isFlatAllowed c = true → c ≠ '-' →
        flatten a ≠ "" := by
  intro a c hmem hall hnd hemp
  have hbeq : (c == '-') = false := by
    simp only [beq_eq_false_iff_ne, ne_eq]
    exact hnd
  have h1 : c ∈ collapseRuns false (flattenInput a).data :=
    mem_collapseRuns_of_allowed false _ c hmem hall
  have h2 : c ∈ dropEdgeDashes (collapseRuns false (flattenInput a).data) :=
    mem_dropEdgeDashes_of_allowed h1 hbeq
  have h3 : (flatten a).data = [] := by
    rw [hemp]
  rw [flatten_data] at h3
  rw [h3] at h2
  simp at h2

/-- Witness for the amended C8: a plain filename flattens to a non-empty
string. -/
theorem flatten_nonempty_amended_witness :
    ('x' ∈ (flattenInput (.str "x.txt")).data
      ∧ isFlatAllowed 'x' = true ∧ 'x' ≠ '-')
  ∧ flatten (.str "x.txt") ≠ "" :=
  ⟨⟨by decide, by decide, by decide⟩,
   flatten_nonempty_amended (.str "x.txt") 'x' (by decide) (by decide) (by decide)⟩

/-! ## C4 -/

theorem flatten_head_not_slash (a : Addr) :
    (flatten a).data.head? ≠ some '/' := by
  intro h
  have hmem : '/' ∈ (flatten a).data := by
    cases hd : (flatten a).data with
    | nil => rw [hd] at h; simp at h
    | cons x xs =>
        rw [hd] at h
        simp only [List.head?_cons, Option.some.injEq] at h
        subst h
        exact List.mem_cons_self _ _
  rw [flatten_data] at hmem
  have := mem_collapseRuns_allowed false _ '/' (mem_of_mem_dropEdgeDashes hmem)
  simp [isFlatAllowed] at this

theorem osJoin_inj_of_not_slash (d : String) {x y : String}
    (hx : x.data.head? ≠ some '/') (hy : y.data.head? ≠ some '/')
    (h : osJoin d x = osJoin d y) : x = y := by
  rw [osJoin, if_neg hx, osJoin, if_neg hy] at h
  by_cases hd : d.data = [] ∨ d.data.getLast? = some '/'
  · rw [if_pos hd, if_pos hd] at h
    have h2 := congrArg String.data h
    rw [String.data_append, String.data_append] at h2
    exact String.ext (List.append_cancel_left h2)
  · rw [if_neg hd, if_neg hd] at h
    have h2 := congrArg String.data h
    rw [String.data_append, String.data_append] at h2
    exact String.ext (List.append_cancel_left h2)

/-- Counterexample to C4: `_flatten` is not injective, so two distinct
sources can receive the same computed destination under one destination
directory — `a b` and `a-b` both flatten to `a-b`. -/
theorem copyFiles_flatten_collision :
    Addr.str "a b" ≠ Addr.str "a-b"
  ∧ copyFilesResolvedDsts [Addr.str "a b", Addr.str "a-b"] (.single (.str "out"))
      = [Addr.str "out/a-b", Addr.str "out/a-b"]
  ∧ ¬ (copyFilesResolvedDsts [Addr.str "a b", Addr.str "a-b"]
        (.single (.str "out"))).Nodup :=
  ⟨by decide, rfl, by decide⟩

/-- C4 as amended: for a single `str | Path` destination, `copy_files`
computes exactly N destination entries, the i-th being
`join(destination, flatten(source_i))`, and submits exactly N tasks; the
N computed names are all distinct whenever the flattened source names are
pairwise distinct (distinctness of the sources alone does not suffice, as
the counterexample shows). -/
theorem copyFiles_single_dst_amended :
    ∀ (d : StrOrPath) (srcs : List Addr),
      (copyFilesResolvedDsts srcs (.single d)).length = srcs.length
    ∧ (copyFilesTasks srcs (.single d)).length = srcs.length
    ∧ (∀ i : Nat, (copyFilesResolvedDsts srcs (.single d))[i]?
          = srcs[i]?.map (fun s => .str (osJoin d.render (flatten s))))
    ∧ ((srcs.map flatten).Nodup → (copyFilesResolvedDsts srcs (.single d)).Nodup) := by
  intro d srcs
  refine ⟨List.length_map _ _, ?_, ?_, ?_⟩
  · rw [copyFilesTasks, List.length_zip, copyFilesResolvedDsts, List.length_map,
      Nat.min_self]
  · intro i
    exact List.getElem?_map _ _ _
  · intro hn
    show (srcs.map fun s => Addr.str (osJoin d.render (flatten s))).Nodup
    have heq : (srcs.map fun s => Addr.str (osJoin d.render (flatten s)))
        = (srcs.map flatten).map fun t => Addr.str (osJoin d.render t) := by
      rw [List.map_map]
      rfl
    rw [heq]
    apply List.Nodup.map_on _ hn
    intro x hx y hy hxy
    obtain ⟨sx, _, hsx⟩ := List.mem_map.mp hx
    obtain ⟨sy, _, hsy⟩ := List.mem_map.mp hy
    have hxs : x.data.head? ≠ some '/' := by
      rw [← hsx]; exact flatten_head_not_slash sx
    have hys : y.data.head? ≠ some '/' := by
      rw [← hsy]; exact flatten_head_not_slash sy
    injection hxy with hxy
    exact osJoin_inj_of_not_slash d.render hxs hys hxy

/-- Witness for the amended C4: two sources with distinct flattened names
receive distinct destinations. -/
theorem copyFiles_single_dst_amended_witness :
    ([Addr.str "a.txt", Addr.str "b.txt"].map flatten).Nodup
  ∧ (copyFilesResolvedDsts [Addr.str "a.txt", Addr.str "b.txt"]
      (.single (.str "out"))).Nodup :=
  ⟨by decide,
   (copyFiles_single_dst_amended (.str "out")
      [Addr.str "a.txt", Addr.str "b.txt"]).2.2.2 (by decide)⟩

/-! ## C2 -/

/-- C2: directory-destination inference of the three remote-touching
single-item strategies.  A download whose destination path is an existing
local directory writes to `directory/basename(source blob name)` and
otherwise to the destination verbatim; an upload whose destination object
name ends in the separator uploads to that name joined with the source
basename and otherwise verbatim; a remote-to-remote copy appends the
source basename exactly when the destination name ends in the separator
and the source name does not — a trailing separator on the source
suppresses the append even when the destination is a directory. -/
theorem effectiveDestination_directory_inference :
    (∀ (isdir : String → Bool) (src : StrOrBlob) (sb : Blob) (dst : StrOrPath)
       (q : Bool) (eff : DownloadEffect),
        resolveBlob src = .ok sb →
        downloadFileRun isdir src dst q = .ok eff →
          eff.filename = (if isdir (uriToFilename dst) = true
                          then osJoin (uriToFilename dst) (basename sb.name)
                          else uriToFilename dst))
  ∧ (∀ (src : StrOrPath) (dst : StrOrBlob) (db : Blob) (q : Bool)
       (eff : UploadEffect),
        resolveBlob dst = .ok db →
        uploadFileRun src dst q = .ok eff →
          eff.dstBlob.bucket = db.bucket
        ∧ eff.dstBlob.name = (if endsWithSlash db.name = true
                              then osJoin db.name (basename (uriToFilename src))
                              else db.name))
  ∧ (∀ (src dst : StrOrBlob) (sb db : Blob) (q : Bool) (eff : CopyBlobEffect),
        resolveBlob src = .ok sb →
        resolveBlob dst = .ok db →
        copyBlobRun src dst q = .ok eff →
          eff.dstBlob.bucket = db.bucket
        ∧ eff.dstBlob.name
            = (if endsWithSlash db.name = true ∧ ¬ endsWithSlash sb.name = true
               then osJoin db.name (basename sb.name)
               else db.name)) := by
  refine ⟨?_, ?_, ?_⟩
  · intro isdir src sb dst q eff hs h
    simp only [downloadFileRun] at h
    rw [hs] at h
    dsimp only at h
    injection h with h
    subst h
    rfl
  · intro src dst db q eff hd h
    simp only [uploadFileRun] at h
    rw [hd] at h
    dsimp only at h
    injection h with h
    subst h
    by_cases hsl : endsWithSlash db.name = true
    · simp [hsl]
    · simp [hsl]
  · intro src dst sb db q eff hs hd h
    simp only [copyBlobRun] at h
    rw [hs] at h
    dsimp only at h
    rw [hd] at h
    dsimp only at h
    injection h with h
    subst h
    by_cases hc : endsWithSlash db.name = true ∧ endsWithSlash sb.name = false
    · simp [hc]
    · simp [hc]

/-- Witness for C2: a remote-to-remote copy into a directory-marked
destination appends the source basename. -/
theorem effectiveDestination_directory_inference_witness :
    copyBlobRun (.blob ⟨"b1", "p/x.txt"⟩) (.blob ⟨"b2", "d/"⟩) true
      = .ok ⟨⟨"b2", "d/x.txt"⟩, []⟩
  ∧ (Blob.mk "b2" "d/x.txt").bucket = "b2"
  ∧ (Blob.mk "b2" "d/x.txt").name
      = (if endsWithSlash "d/" = true ∧ ¬ endsWithSlash "p/x.txt" = true
         then osJoin "d/" (basename "p/x.txt")
         else "d/") := by
  have h := effectiveDestination_directory_inference.2.2 (.blob ⟨"b1", "p/x.txt"⟩)
    (.blob ⟨"b2", "d/"⟩) ⟨"b1", "p/x.txt"⟩ ⟨"b2", "d/"⟩ true
    ⟨⟨"b2", "d/x.txt"⟩, []⟩ rfl rfl rfl
  exact ⟨rfl, h.1, h.2⟩

/-! ## C9 -/

/-- Counterexample to C9: a successful remote-to-remote copy logs the
destination blob address, not the source address — copying
`gs://bkt/a.txt` over `gs://bkt/b.txt` prints the line for
`gs://bkt/b.txt`, which differs from the line for the source. -/
theorem copyBlob_logs_destination :
    copyBlobRun (.blob ⟨"bkt", "a.txt"⟩) (.blob ⟨"bkt", "b.txt"⟩) false
      = .ok ⟨⟨"bkt", "b.txt"⟩,
             [logSuccessfulCopy (.blob ⟨"bkt", "b.txt"⟩) (some 1) (some 1)]⟩
  ∧ logSuccessfulCopy (.blob ⟨"bkt", "b.txt"⟩) (some 1) (some 1)
      ≠ logSuccessfulCopy (.blob ⟨"bkt", "a.txt"⟩) (some 1) (some 1) :=
  ⟨rfl, by decide⟩

/-- C9 as amended: with `quiet` unset, a successful local copy logs the
source path, an upload logs the decoded local source filename, a download
logs the downloaded (source) blob address, and a remote-to-remote
server-side copy logs the final destination blob address (the
counterexample rules out the source there). -/
theorem successLog_addresses_amended :
    (∀ (src dst : StrOrPath),
        copyFileRun src dst false = [logSuccessfulCopy src.toAddr none none])
  ∧ (∀ (isdir : String → Bool) (src : StrOrBlob) (sb : Blob) (dst : StrOrPath)
       (eff : DownloadEffect),
        resolveBlob src = .ok sb →
        downloadFileRun isdir src dst false = .ok eff →
          eff.output = [logSuccessfulCopy (.blob sb) (some 1) (some 1)])
  ∧ (∀ (src : StrOrPath) (dst : StrOrBlob) (eff : UploadEffect),
        uploadFileRun src dst false = .ok eff →
          eff.output = [logSuccessfulCopy (.str (uriToFilename src)) (some 1) (some 1)])
  ∧ (∀ (src dst : StrOrBlob) (eff : CopyBlobEffect),
        copyBlobRun src dst false = .ok eff →
          eff.output = [logSuccessfulCopy (.blob eff.dstBlob) (some 1) (some 1)]) := by
  refine ⟨fun src dst => rfl, ?_, ?_, ?_⟩
  · intro isdir src sb dst eff hs h
    simp only [downloadFileRun] at h
    rw [hs] at h
    dsimp only at h
    injection h with h
    subst h
    rfl
  · intro src dst eff h
    simp only [uploadFileRun] at h
    cases hd : resolveBlob dst with
    | error e => rw [hd] at h; simp at h
    | ok db =>
        rw [hd] at h
        dsimp only at h
        injection h with h
        subst h
        rfl
  · intro src dst eff h
    simp only [copyBlobRun] at h
    cases hs : resolveBlob src with
    | error e => rw [hs] at h; simp at h
    | ok sb =>
        rw [hs] at h
        dsimp only at h
        cases hd : resolveBlob dst with
        | error e => rw [hd] at h; simp at h
        | ok db =>
            rw [hd] at h
            dsimp only at h
            injection h with h
            subst h
            rfl

/-- Witness for the amended C9: the remote-to-remote conjunct at the
counterexample input. -/
theorem successLog_addresses_amended_witness :
    copyBlobRun (.blob ⟨"bx", "s.txt"⟩) (.blob ⟨"by", "t.txt"⟩) false
      = .ok ⟨⟨"by", "t.txt"⟩,
             [logSuccessfulCopy (.blob ⟨"by", "t.txt"⟩) (some 1) (some 1)]⟩
  ∧ (CopyBlobEffect.mk ⟨"by", "t.txt"⟩
        [logSuccessfulCopy (.blob ⟨"by", "t.txt"⟩) (some 1) (some 1)]).output
      = [logSuccessfulCopy
          (.blob (CopyBlobEffect.mk ⟨"by", "t.txt"⟩
            [logSuccessfulCopy (.blob ⟨"by", "t.txt"⟩) (some 1) (some 1)]).dstBlob)
          (some 1) (some 1)] :=
  ⟨rfl,
   successLog_addresses_amended.2.2.2 (.blob ⟨"bx", "s.txt"⟩) (.blob ⟨"by", "t.txt"⟩)
     ⟨⟨"by", "t.txt"⟩, [logSuccessfulCopy (.blob ⟨"by", "t.txt"⟩) (some 1) (some 1)]⟩ rfl⟩

/-! ## C10 -/

theorem dataAsString (s : String) : s.data.asString = s := rfl

/-- A bare filesystem-path string: no colon, hash, question mark or
semicolon, none of the control characters `urlsplit` removes, and no
leading double slash.  On such strings `urlparse` returns the whole string
as the path. -/
def isBarePath (s : String) : Bool :=
  s.data.all (fun c => !(c == ':' || c == '#' || c == '?' || c == ';' ||
      c == Char.ofNat 9 || c == Char.ofNat 13 || c == Char.ofNat 10))
  && !(decide (s.data.take 2 = ['/', '/']))

theorem urlparsePath_of_bare (s : String) (h : isBarePath s = true) :
    urlparsePath s = s := by
  rw [isBarePath, Bool.and_eq_true] at h
  obtain ⟨h1, h2⟩ := h
  rw [List.all_eq_true] at h1
  have hchar : ∀ c ∈ s.data, ¬ c = ':' ∧ ¬ c = '#' ∧ ¬ c = '?' ∧ ¬ c = ';'
      ∧ ¬ c = Char.ofNat 9 ∧ ¬ c = Char.ofNat 13 ∧ ¬ c = Char.ofNat 10 := by
    intro c hc
    have hx := h1 c hc
    simp only [Bool.not_eq_true', Bool.or_eq_false_iff, beq_eq_false_iff_ne, ne_eq] at hx
    exact ⟨hx.1.1.1.1.1.1, hx.1.1.1.1.1.2, hx.1.1.1.1.2, hx.1.1.1.2, hx.1.1.2,
      hx.1.2, hx.2⟩
  have htake : ¬ s.data.take 2 = ['/', '/'] := by simpa using h2
  have hrm : removeUnsafeChars s.data = s.data := by
    apply List.filter_eq_self.mpr
    intro c hc
    have hcf := hchar c hc
    simp [hcf.2.2.2.2.1, hcf.2.2.2.2.2.1, hcf.2.2.2.2.2.2]
  have hcolon : s.data.findIdx? (fun c => c == ':') = none := by
    apply List.findIdx?_eq_none_iff.mpr
    intro c hc
    simpa using (hchar c hc).1
  have hscheme : splitSchemeAux s.data = ("", s.data) := by
    simp only [splitSchemeAux, hcolon]
  have hnet : splitNetlocAux s.data = ("", s.data) := by
    simp only [splitNetlocAux, if_neg htake]
  have hhash : s.data.findIdx? (fun c => c == '#') = none := by
    apply List.findIdx?_eq_none_iff.mpr
    intro c hc
    simpa using (hchar c hc).2.1
  have hquestion : s.data.findIdx? (fun c => c == '?') = none := by
    apply List.findIdx?_eq_none_iff.mpr
    intro c hc
    simpa using (hchar c hc).2.2.1
  have hfrag : splitOnFirst s.data '#' = (s.data, []) := by
    simp only [splitOnFirst, hhash]
  have hquery : splitOnFirst s.data '?' = (s.data, []) := by
    simp only [splitOnFirst, hquestion]
  have hsplit : urlsplitModel s = ⟨"", "", s.data.asString, "", ""⟩ := by
    simp only [urlsplitModel, hrm, hscheme, hnet, hfrag, hquery]
    rfl
  have hsemi : s.data.any (fun c => c == ';') = false := by
    apply List.any_eq_false.mpr
    intro c hc
    simpa using (hchar c hc).2.2.2.1
  simp only [urlparsePath, hsplit]
  show (splitParamsAux s.data).asString = s
  simp only [splitParamsAux, hsemi]
  exact dataAsString s

theorem unquoteFuel_id_of_no_percent :
    ∀ (fuel : Nat) (l : List Char), (∀ c ∈ l, ¬ c = '%') →
      unquoteFuel fuel l = l := by
  intro fuel
  induction fuel with
  | zero => intro l _; rfl
  | succ n ih =>
      intro l h
      cases l with
      | nil => rfl
      | cons c rest =>
          have hc : ¬ c = '%' := h c (List.mem_cons_self _ _)
          simp only [unquoteFuel, if_neg hc]
          rw [ih rest (fun a ha => h a (List.mem_cons_of_mem _ ha))]

theorem no_percent_map_plus (l : List Char) (h : ∀ c ∈ l, ¬ c = '%') :
    ∀ c ∈ l.map (fun c => if c = '+' then ' ' else c), ¬ c = '%' := by
  intro c hc
  obtain ⟨a, ha, rfl⟩ := List.mem_map.mp hc
  by_cases hp : a = '+'
  · simp only [hp, if_pos rfl]
    decide
  · simp only [if_neg hp]
    exact h a ha

/-- C10: the effective local filesystem path of a string-typed address —
the source of `_upload_file` and the destination of `_download_file` both
go through `_uri_to_filename` — is `unquote_plus(urlparse(s).path)`:
percent-escapes are decoded and every literal `+` becomes a space even for
a bare path string with no `file:` scheme, while a `Path`-typed address is
rendered verbatim with no decoding.  Stated on the range where every
percent-escape decodes to an ASCII byte, where the embedded decoder agrees
exactly with CPython. -/
theorem uriToFilename_decoding :
    ∀ (s p : String),
      asciiEscapesOnly s.data = true →
        uriToFilename (.str s) = unquotePlus (urlparsePath s)
      ∧ (isBarePath s = true → uriToFilename (.str s) = unquotePlus s)
      ∧ (isBarePath s = true → s.data.all (fun c => !(c == '%')) = true →
           uriToFilename (.str s)
             = (s.data.map (fun c => if c = '+' then ' ' else c)).asString)
      ∧ (∀ (dst : StrOrBlob) (db : Blob) (q : Bool) (eff : UploadEffect),
           resolveBlob dst = .ok db → uploadFileRun (.str s) dst q = .ok eff →
             eff.srcFilename = unquotePlus (urlparsePath s))
      ∧ uriToFilename (.path p) = p := by
  intro s p _
  have hbase : uriToFilename (.str s) = unquotePlus (urlparsePath s) := rfl
  refine ⟨hbase, ?_, ?_, ?_, rfl⟩
  · intro hb
    rw [hbase, urlparsePath_of_bare s hb]
  · intro hb hnp
    have hperc : ∀ c ∈ s.data, ¬ c = '%' := by
      intro c hc
      have := List.all_eq_true.mp hnp c hc
      simpa using this
    rw [hbase, urlparsePath_of_bare s hb]
    simp only [unquotePlus, unquoteAsciiAux]
    rw [unquoteFuel_id_of_no_percent _ _ (no_percent_map_plus s.data hperc)]
  · intro dst db q eff hd h
    simp only [uploadFileRun] at h
    rw [hd] at h
    dsimp only at h
    injection h with h
    subst h
    rfl

/-- Witness for C10: a bare path with a plus and an escape decodes as
stated. -/
theorem uriToFilename_decoding_witness :
    asciiEscapesOnly "dir/my+file%41.txt".data = true
  ∧ isBarePath "dir/my+file%41.txt" = true
  ∧ uriToFilename (.str "dir/my+file%41.txt") = unquotePlus "dir/my+file%41.txt"
  ∧ unquotePlus "dir/my+file%41.txt" = "dir/my fileA.txt" :=
  ⟨by decide, by decide,
   (uriToFilename_decoding "dir/my+file%41.txt" "q" (by decide)).2.1 (by decide),
   by decide⟩
